import Mathlib

/-!
# Verification of the filekid `fs` module (path containment and backend operations)

This file is a shallow embedding of the `fs` module family of the filekid
repository: the path model of Rust `std::path` as the code uses it
(`join`, `ancestors`, `parent`, `file_name`, component normalisation), the
error type (`src/error.rs`), the two backends `LocalFs` (`src/fs/local.rs`)
and `TempDir` (`src/fs/tempdir.rs`), and an explicit filesystem state over
which the I/O primitives (`exists`, `metadata`, `read`, `write`,
`remove_file`, `read_dir`) are given a race-free semantics without symlinks.
Theorems at the end settle the frozen claims about the spec.
-/

/-- A single component of a path, as produced by Rust `Path::components()`
on Unix: the root `/`, a literal `.` (kept only at the start of a relative
path), a literal `..`, or a normal segment. -/
inductive Comp where
  | rootDir
  | curDir
  | parentDir
  | normal (s : String)
deriving DecidableEq

/-- A single-quote character, built from its code point so the source text
holds no quote literal. -/
def squote : String := String.mk [Char.ofNat 39]

/-- True iff the string begins with the character `/` (Rust
`Path::has_root` / `str::starts_with` on the first byte). -/
def beginsWithSlash (s : String) : Bool :=
  match s.data with
  | [] => false
  | c :: _ => c = '/'

/-- Split a character list at `/` separators, keeping empty segments. -/
def segsOfAux (acc : List Char) : List Char → List String
  | [] => [String.mk acc.reverse]
  | c :: rest =>
      if c = '/' then String.mk acc.reverse :: segsOfAux [] rest
      else segsOfAux (c :: acc) rest

/-- The non-empty `/`-separated segments of a string. -/
def segsOf (s : String) : List String :=
  (segsOfAux [] s.data).filter (fun t => decide (¬ t = ""))

/-- Classify one segment the way `Path::components` does. -/
def parseSeg (s : String) : Comp :=
  if s = ".." then Comp.parentDir
  else if s = "." then Comp.curDir
  else Comp.normal s

/-- The component list of a path string, following Rust `Path::components`
on Unix: repeated and trailing separators vanish, `.` segments are
normalised away except at the beginning of a relative path, and a leading
`/` becomes the root component. -/
def parsePath (s : String) : List Comp :=
  let mapped := (segsOf s).map parseSeg
  if beginsWithSlash s then
    Comp.rootDir :: mapped.filter (fun c => decide (¬ c = Comp.curDir))
  else
    match mapped with
    | Comp.curDir :: rest =>
        Comp.curDir :: rest.filter (fun c => decide (¬ c = Comp.curDir))
    | l => l.filter (fun c => decide (¬ c = Comp.curDir))

/-- `PathBuf::join` at the component level: a path with a root replaces the
receiver entirely; otherwise the components are appended (appending makes
any `.` component of the argument non-leading, so it is normalised away,
except that joining onto the empty path keeps the argument verbatim). -/
def pathJoin (a b : List Comp) : List Comp :=
  if b.head? = some Comp.rootDir then b
  else if a = [] then b
  else a ++ b.filter (fun c => decide (¬ c = Comp.curDir))

/-- Rust `Path::parent`: the path without its final component; `none` for
the empty path and for the bare root. -/
def parentOfPath (l : List Comp) : Option (List Comp) :=
  if l = [] ∨ l = [Comp.rootDir] then none else some l.dropLast

/-- Fuelled iteration of `parent`, mirroring `Path::ancestors`. -/
def ancestorsAux : Nat → List Comp → List (List Comp)
  | 0, l => [l]
  | fuel + 1, l =>
      match parentOfPath l with
      | none => [l]
      | some p => l :: ancestorsAux fuel p

/-- Rust `Path::ancestors`: the path itself followed by all its parents.
Each `parent` step drops one component, so `l.length` fuel is enough. -/
def ancestors (l : List Comp) : List (List Comp) :=
  ancestorsAux l.length l

/-- Rust `Path::file_name`: the final component when it is a normal
segment, `none` when the path ends in the root, `.`, `..`, or is empty. -/
def fileNameOfPath (l : List Comp) : Option String :=
  match l.getLast? with
  | some (Comp.normal s) => some s
  | _ => none

/-- Render one component back to text (for `Path::display` /
`to_string_lossy`). -/
def renderSeg : Comp → String
  | Comp.rootDir => ""
  | Comp.curDir => "."
  | Comp.parentDir => ".."
  | Comp.normal s => s

/-- Join rendered segments with `/` separators. -/
def joinSegsSlash : List String → String
  | [] => ""
  | [s] => s
  | s :: rest => s ++ "/" ++ joinSegsSlash rest

/-- Render a component list back to the text Rust would display for it. -/
def renderPath (l : List Comp) : String :=
  if l = [Comp.rootDir] then "/" else joinSegsSlash (l.map renderSeg)

/-- Rust `str::trim_start_matches("/")`: drop every leading `/`. -/
def trimLeadingSlashes (s : String) : String :=
  String.mk (s.data.dropWhile (fun c => c = '/'))

example : parsePath "/tmp/x" = [Comp.rootDir, Comp.normal "tmp", Comp.normal "x"] := by decide
example : parsePath "../../../etc/passwd" =
    [Comp.parentDir, Comp.parentDir, Comp.parentDir, Comp.normal "etc", Comp.normal "passwd"] := by
  decide
example : parsePath "" = [] := by decide
example : parsePath "." = [Comp.curDir] := by decide
example : parsePath "a/./b//" = [Comp.normal "a", Comp.normal "b"] := by decide
example : ancestors (parsePath "/tmp/x/../..") =
    [parsePath "/tmp/x/../..", parsePath "/tmp/x/..", parsePath "/tmp/x",
     parsePath "/tmp", parsePath "/"] := by decide
example : pathJoin (parsePath "/tmp/x") (parsePath "/etc/passwd") = parsePath "/etc/passwd" := by
  decide

/-- The error enum of `src/error.rs` (variants verbatim; each carries its
message string). -/
inductive Error where
  | Generic (m : String)
  | Configuration (m : String)
  | Oidc (m : String)
  | NotFound (m : String)
  | InternalServerError (m : String)
  | Io (m : String)
  | NotAuthorized (m : String)
  | InvalidFileType (m : String)
  | BadRequest (m : String)
  | Database (m : String)
  | TemplateRendering (m : String)
deriving DecidableEq

/-- The kinds of operating-system I/O failure the model distinguishes. -/
inductive IoErr where
  | notFound
  | permissionDenied
  | notADirectory
  | isADirectory
deriving DecidableEq

/-- The display text of an I/O failure (the model's stand-in for
`std::io::Error::to_string`). -/
def ioMsg : IoErr → String
  | IoErr.notFound => "No such file or directory (os error 2)"
  | IoErr.permissionDenied => "Permission denied (os error 13)"
  | IoErr.notADirectory => "Not a directory (os error 20)"
  | IoErr.isADirectory => "Is a directory (os error 21)"

/-- `impl From<std::io::Error> for Error`: every I/O failure becomes
`Error::Io` with the rendered message. -/
def Error.fromIo (e : IoErr) : Error := Error.Io (ioMsg e)

/-- The `FileType` enum of `src/views/browse.rs`. -/
inductive FileType where
  | Directory
  | File
deriving DecidableEq

/-- The `FileEntry` struct of `src/views/browse.rs`. -/
structure FileEntry where
  filename : String
  fullpath : String
  filetype : FileType
deriving DecidableEq

/-- The `FileData` struct of `src/fs/mod.rs`: name, parent path on disk,
optional size. -/
structure FileData where
  filename : String
  filepath : List Comp
  size : Option Nat
deriving DecidableEq

/-- A filesystem node: a regular file with its bytes, or a directory.
Directory sizes are filesystem-specific and no claim depends on them, so a
directory's metadata length is modelled as `0` below. -/
inductive Node where
  | file (contents : List Nat)
  | dir
deriving DecidableEq

/-- Whether a node is a directory. -/
def Node.isDirNode : Node → Bool
  | Node.dir => true
  | Node.file _ => false

/-- The metadata length of a node. -/
def nodeLen : Node → Nat
  | Node.file c => c.length
  | Node.dir => 0

/-- A race-free, symlink-free filesystem state: an association list from
resolved absolute paths (segment-name lists, `[]` being `/`) to nodes,
plus the paths on which a bare `stat` fails with permission denied and the
directories whose entries cannot be read (`read_dir` fails) even though
they exist. -/
structure Fs where
  entries : List (List String × Node)
  statDenied : List (List String)
  readDenied : List (List String)
deriving DecidableEq

/-- First-match association lookup on a raw entry list. -/
def lookupRaw (l : List (List String × Node)) (p : List String) : Option Node :=
  match l with
  | [] => none
  | e :: rest => if e.fst = p then some e.snd else lookupRaw rest p

/-- The node recorded at a resolved path, if any. -/
def lookupFs (fs : Fs) (p : List String) : Option Node :=
  lookupRaw fs.entries p

/-- Whether the resolved path is recorded as a directory. -/
def isDirAtNames (fs : Fs) (p : List String) : Bool :=
  match lookupFs fs p with
  | some Node.dir => true
  | _ => false

/-- Kernel-style resolution of the components after the root against the
current directory stack: every component is looked up inside an existing
directory (so each intermediate must exist as a directory), `..` steps up
(clamped at the root), and a final normal segment need not exist (so paths
about to be created still resolve). -/
def walkAux (fs : Fs) (stack : List String) : List Comp → Option (List String)
  | [] => some stack
  | c :: rest =>
      if isDirAtNames fs stack then
        match c with
        | Comp.normal s =>
            if rest.isEmpty then some (stack ++ [s]) else walkAux fs (stack ++ [s]) rest
        | Comp.parentDir => walkAux fs stack.dropLast rest
        | Comp.curDir => walkAux fs stack rest
        | Comp.rootDir => walkAux fs [] rest
      else none

/-- Resolve an absolute component path to its resolved segment list; a
relative path cannot be resolved (no working directory is modelled — every
path the backends hand to the OS is rooted once the backend root is). -/
def walkPath (fs : Fs) (l : List Comp) : Option (List String) :=
  match l with
  | Comp.rootDir :: rest => walkAux fs [] rest
  | _ => none

/-- `std::fs::metadata`: resolve, then stat the resolved path. -/
def fsMeta (fs : Fs) (l : List Comp) : Except IoErr Node :=
  match walkPath fs l with
  | none => Except.error IoErr.notFound
  | some q =>
      if fs.statDenied.any (fun r => decide (r = q)) then Except.error IoErr.permissionDenied
      else
        match lookupFs fs q with
        | some n => Except.ok n
        | none => Except.error IoErr.notFound

/-- `metadata(..).ok()`. -/
def statPath (fs : Fs) (l : List Comp) : Option Node :=
  (fsMeta fs l).toOption

/-- Rust `Path::exists`: true iff `metadata` succeeds. -/
def pathExists (fs : Fs) (l : List Comp) : Bool :=
  (statPath fs l).isSome

/-- Rust `Path::is_dir`: `metadata` succeeds and reports a directory. -/
def isDirPath (fs : Fs) (l : List Comp) : Bool :=
  match statPath fs l with
  | some Node.dir => true
  | _ => false

/-- Rust `Path::is_file`: `metadata` succeeds and reports a file. -/
def isFilePath (fs : Fs) (l : List Comp) : Bool :=
  match statPath fs l with
  | some (Node.file _) => true
  | _ => false

/-- `std::fs::read` / `tokio::fs::read`. -/
def fsRead (fs : Fs) (l : List Comp) : Except IoErr (List Nat) :=
  match walkPath fs l with
  | none => Except.error IoErr.notFound
  | some q =>
      if fs.statDenied.any (fun r => decide (r = q)) then Except.error IoErr.permissionDenied
      else
        match lookupFs fs q with
        | some (Node.file c) => Except.ok c
        | some Node.dir => Except.error IoErr.isADirectory
        | none => Except.error IoErr.notFound

/-- Remove every entry recorded at the given key. -/
def removeKey (l : List (List String × Node)) (q : List String) :
    List (List String × Node) :=
  match l with
  | [] => []
  | e :: rest => if e.fst = q then removeKey rest q else e :: removeKey rest q

/-- `std::fs::write` / `tokio::fs::write`: create or truncate-and-replace
the resolved target; fails when resolution fails (a missing intermediate
directory) or the target is a directory. -/
def fsWrite (fs : Fs) (l : List Comp) (contents : List Nat) : Except IoErr Fs :=
  match walkPath fs l with
  | none => Except.error IoErr.notFound
  | some q =>
      if fs.statDenied.any (fun r => decide (r = q)) then Except.error IoErr.permissionDenied
      else
        match lookupFs fs q with
        | some Node.dir => Except.error IoErr.isADirectory
        | _ =>
            Except.ok
              ⟨(q, Node.file contents) :: removeKey fs.entries q,
                fs.statDenied, fs.readDenied⟩

/-- `std::fs::remove_file`: unlink a single file; a directory is refused. -/
def fsRemoveFile (fs : Fs) (l : List Comp) : Except IoErr Fs :=
  match walkPath fs l with
  | none => Except.error IoErr.notFound
  | some q =>
      match lookupFs fs q with
      | some (Node.file _) =>
          Except.ok ⟨removeKey fs.entries q, fs.statDenied, fs.readDenied⟩
      | some Node.dir => Except.error IoErr.isADirectory
      | none => Except.error IoErr.notFound

/-- One entry yielded by `read_dir`: its name and whether the directory
entry records a directory (`DirEntry::file_type`, the `d_type`). -/
structure DirEnt where
  name : String
  entIsDir : Bool
deriving DecidableEq

/-- The immediate children of a resolved directory path. -/
def childrenOf (fs : Fs) (q : List String) : List DirEnt :=
  fs.entries.filterMap (fun e =>
    if ¬ e.fst = [] ∧ e.fst.dropLast = q then
      (e.fst.getLast?).map (fun s => DirEnt.mk s e.snd.isDirNode)
    else none)

/-- `std::fs::read_dir`: fails when the path cannot be resolved, is not a
directory, or reading its entries is denied. -/
def fsReadDir (fs : Fs) (l : List Comp) : Except IoErr (List DirEnt) :=
  match walkPath fs l with
  | none => Except.error IoErr.notFound
  | some q =>
      if fs.readDenied.any (fun r => decide (r = q)) then Except.error IoErr.permissionDenied
      else
        match lookupFs fs q with
        | some Node.dir => Except.ok (childrenOf fs q)
        | some (Node.file _) => Except.error IoErr.notADirectory
        | none => Except.error IoErr.notFound

/-- Rust `Iterator::collect::<Result<Vec<_>, _>>`: map a fallible function
over a list, stopping at the first error. -/
def exceptMap {α β : Type} (f : α → Except Error β) : List α → Except Error (List β)
  | [] => Except.ok []
  | a :: rest =>
      match f a with
      | Except.error e => Except.error e
      | Except.ok b =>
          match exceptMap f rest with
          | Except.error e => Except.error e
          | Except.ok bs => Except.ok (b :: bs)

/-- The Boolean core of both backends' containment check: join the root
with the candidate and ask whether any ancestor of the joined path equals
the root. No canonicalisation of `..` and no symlink resolution happens. -/
def isInBasepathB (base : List Comp) (p : List Comp) : Bool :=
  (ancestors (pathJoin base p)).any (fun q => decide (q = base))

/-- The `LocalFs` struct of `src/fs/local.rs`. -/
structure LocalFs where
  base_path : List Comp
deriving DecidableEq

/-- `LocalFs::is_in_basepath`:
`Ok(self.base_path.join(filename).ancestors().any(|path| path == self.base_path))`. -/
def LocalFs.is_in_basepath (self : LocalFs) (filename : List Comp) : Except Error Bool :=
  Except.ok (isInBasepathB self.base_path filename)

/-- `LocalFs::target_path_from_key`: `self.base_path.join(key)`. -/
def LocalFs.target_path_from_key (self : LocalFs) (key : String) : List Comp :=
  pathJoin self.base_path (parsePath key)

/-- `LocalFs::available`: `Ok(self.base_path.exists())`. -/
def LocalFs.available (self : LocalFs) (fs : Fs) : Except Error Bool :=
  Except.ok (pathExists fs self.base_path)

/-- `LocalFs::exists`: the joined target equal to the base path is special-
cased to `true`; otherwise the target must exist on disk and pass the
containment check. The Rust name `exists` is a Lean keyword, hence the
suffix. -/
def LocalFs.existsOp (self : LocalFs) (filepath : String) (fs : Fs) : Except Error Bool :=
  let target_file := pathJoin self.base_path (parsePath filepath)
  if self.base_path = target_file then Except.ok true
  else
    Except.ok (pathExists fs target_file && isInBasepathB self.base_path (parsePath filepath))

/-- `LocalFs::get_data`: the containment result is computed but discarded
(`self.is_in_basepath(&path.into())?;` drops the Boolean); an absent
target is `NotFound`; the size is `metadata().ok().map(|m| m.len())`. -/
def LocalFs.get_data (self : LocalFs) (path : String) (fs : Fs) : Except Error FileData :=
  let _ := isInBasepathB self.base_path (parsePath path)
  if ¬ pathExists fs (pathJoin self.base_path (parsePath path)) then
    Except.error (Error.NotFound ("Can" ++ squote ++ "t find " ++ path))
  else
    let actual_filepath := pathJoin self.base_path (parsePath path)
    match fileNameOfPath actual_filepath with
    | none => Except.error (Error.NotFound "File not found")
    | some filename =>
        Except.ok
          { filename := filename
            filepath := (parentOfPath actual_filepath).getD self.base_path
            size := (statPath fs actual_filepath).map nodeLen }

/-- `LocalFs::get_file`: reject with `NotAuthorized` when the containment
check fails, then `tokio::fs::read` the joined target. -/
def LocalFs.get_file (self : LocalFs) (filepath : String) (fs : Fs) : Except Error (List Nat) :=
  let target_path := self.target_path_from_key filepath
  if ¬ isInBasepathB self.base_path (parsePath filepath) then
    Except.error (Error.NotAuthorized "Path is outside of base path")
  else
    match fsRead fs target_path with
    | Except.ok c => Except.ok c
    | Except.error e => Except.error (Error.fromIo e)

/-- `LocalFs::put_file`: the containment check runs on the already-joined
target path, then `tokio::fs::write` creates or overwrites it. -/
def LocalFs.put_file (self : LocalFs) (filepath : String) (contents : List Nat) (fs : Fs) :
    Except Error Fs :=
  let target_file := self.target_path_from_key filepath
  if ¬ isInBasepathB self.base_path target_file then
    Except.error (Error.NotAuthorized "Path is outside of base path")
  else
    match fsWrite fs target_file contents with
    | Except.ok fs2 => Except.ok fs2
    | Except.error e => Except.error (Error.fromIo e)

/-- `LocalFs::delete_file`: containment check on the joined target, then
`std::fs::remove_file`. -/
def LocalFs.delete_file (self : LocalFs) (filepath : String) (fs : Fs) : Except Error Fs :=
  let target_file := pathJoin self.base_path (parsePath filepath)
  if ¬ isInBasepathB self.base_path target_file then
    Except.error (Error.NotAuthorized "Path is outside of base path")
  else
    match fsRemoveFile fs target_file with
    | Except.ok fs2 => Except.ok fs2
    | Except.error e => Except.error (Error.fromIo e)

/-- `LocalFs::list_dir`: containment check on the joined target, then a
`BadRequest` unless it is a directory, then `read_dir` (whose failure is
propagated as an error); each child's `fullpath` is the caller's `path`
prefix joined verbatim with the child name (`format!("{}/{}", p, name)`),
and the child's kind comes from `DirEntry::file_type`. -/
def LocalFs.list_dir (self : LocalFs) (path : Option String) (fs : Fs) :
    Except Error (List FileEntry) :=
  let path_addition := path.getD ""
  let target_path := self.target_path_from_key path_addition
  if ¬ isInBasepathB self.base_path target_path then
    Except.error (Error.NotAuthorized "Path is outside of base path")
  else if ¬ isDirPath fs target_path then
    Except.error (Error.BadRequest (path_addition ++ " is not a directory"))
  else
    match fsReadDir fs target_path with
    | Except.error e => Except.error (Error.fromIo e)
    | Except.ok entries =>
        exceptMap (fun entry =>
          let fullpath :=
            match path with
            | some p => p ++ "/" ++ entry.name
            | none => entry.name
          Except.ok
            { filename := entry.name
              fullpath := fullpath
              filetype := if entry.entIsDir then FileType.Directory else FileType.File })
          entries

/-- The `TempDir` tuple struct of `src/fs/tempdir.rs`; `base` is its field
`0`. -/
structure TempDir where
  base : List Comp
deriving DecidableEq

/-- `TempDir::target_path_from_key`: `self.0.join(key)`. -/
def TempDir.target_path_from_key (self : TempDir) (key : String) : List Comp :=
  pathJoin self.base (parsePath key)

/-- `TempDir::is_in_basepath`: ancestors of `self.0.join(key)` searched
for the root itself. -/
def TempDir.is_in_basepath (self : TempDir) (key : String) : Except Error Bool :=
  Except.ok ((ancestors (self.target_path_from_key key)).any (fun p => decide (p = self.base)))

/-- `TempDir::available`: `Ok(self.0.exists())`. -/
def TempDir.available (self : TempDir) (fs : Fs) : Except Error Bool :=
  Except.ok (pathExists fs self.base)

/-- `TempDir::exists`: the empty key is special-cased to `true`; otherwise
the joined target must exist and pass containment. Named like
`LocalFs.existsOp` because `exists` is a Lean keyword. -/
def TempDir.existsOp (self : TempDir) (filepath : String) (fs : Fs) : Except Error Bool :=
  if filepath = "" then Except.ok true
  else
    Except.ok
      (pathExists fs (self.target_path_from_key filepath) &&
        isInBasepathB self.base (parsePath filepath))

/-- `TempDir::get_data`: the containment result is computed but discarded
(`self.is_in_basepath(path)?;`); a failed `target.metadata()?` aborts the
whole call through `From<io::Error>`, and on success the size is always
`Some(len)`. -/
def TempDir.get_data (self : TempDir) (path : String) (fs : Fs) : Except Error FileData :=
  let target := self.target_path_from_key path
  let _ := isInBasepathB self.base (parsePath path)
  match fileNameOfPath target with
  | some filename =>
      match fsMeta fs target with
      | Except.error e => Except.error (Error.fromIo e)
      | Except.ok n =>
          Except.ok
            { filename := filename
              filepath := (parentOfPath target).getD self.base
              size := some (nodeLen n) }
  | none => Except.error (Error.Generic ("Couldn" ++ squote ++ "t get filename"))

/-- `TempDir::get_file`: `NotAuthorized` when containment fails, then
`tokio::fs::read` of the joined target. -/
def TempDir.get_file (self : TempDir) (filepath : String) (fs : Fs) : Except Error (List Nat) :=
  if ¬ isInBasepathB self.base (parsePath filepath) then
    Except.error
      (Error.NotAuthorized ("Path " ++ squote ++ filepath ++ squote ++ " is outside of base path"))
  else
    match fsRead fs (self.target_path_from_key filepath) with
    | Except.ok c => Except.ok c
    | Except.error e => Except.error (Error.fromIo e)

/-- `TempDir::put_file`: write the joined target when containment holds,
otherwise `NotAuthorized`. -/
def TempDir.put_file (self : TempDir) (filepath : String) (contents : List Nat) (fs : Fs) :
    Except Error Fs :=
  if isInBasepathB self.base (parsePath filepath) then
    match fsWrite fs (self.target_path_from_key filepath) contents with
    | Except.ok fs2 => Except.ok fs2
    | Except.error e => Except.error (Error.fromIo e)
  else
    Except.error (Error.NotAuthorized ("Path " ++ filepath ++ " is outside of parent path"))

/-- `TempDir::delete_file` is `todo!("tempdir delete file functionality")`:
it panics unconditionally, which the model renders as `none` (no result is
ever returned, typed or otherwise). -/
def TempDir.delete_file (_self : TempDir) (_filepath : String) (_fs : Fs) :
    Option (Except Error Fs) :=
  none

/-- `impl TryFrom<DirEntry> for FileEntry` (`src/views/browse.rs`): the
name from `file_name`, the kind from the stat-based `is_file`/`is_dir`
pair (anything else is `InvalidFileType`), the initial `fullpath` from the
entry's displayed path. -/
def FileEntry.tryFromDirEntry (fs : Fs) (dirPath : List Comp) (entry : DirEnt) :
    Except Error FileEntry :=
  let path := dirPath ++ [Comp.normal entry.name]
  match fileNameOfPath path with
  | none => Except.error (Error.Generic ("Couldn" ++ squote ++ "t get filename"))
  | some filename =>
      if isFilePath fs path then
        Except.ok { filename := filename, fullpath := renderPath path, filetype := FileType.File }
      else if isDirPath fs path then
        Except.ok
          { filename := filename, fullpath := renderPath path, filetype := FileType.Directory }
      else Except.error (Error.InvalidFileType (renderPath path))

/-- `TempDir::list_dir`: no containment check at all; `BadRequest` unless
the joined target is a directory; then `if let Ok(readdir) = ...read_dir()`
silently turns a failed `read_dir` into the empty result; each entry goes
through `FileEntry::try_from` and its `fullpath` is overwritten with
`format!("{}/{}", path_addition, filename).trim_start_matches("/")`. -/
def TempDir.list_dir (self : TempDir) (path : Option String) (fs : Fs) :
    Except Error (List FileEntry) :=
  let path_addition := path.getD ""
  let target_path := pathJoin self.base (parsePath path_addition)
  if ¬ isDirPath fs target_path then
    Except.error (Error.BadRequest (path_addition ++ " is not a directory"))
  else
    match fsReadDir fs target_path with
    | Except.error _ => Except.ok []
    | Except.ok readdir =>
        exceptMap (fun direntry =>
          match FileEntry.tryFromDirEntry fs target_path direntry with
          | Except.error e => Except.error e
          | Except.ok fileentry =>
              Except.ok
                { fileentry with
                    fullpath :=
                      trimLeadingSlashes (path_addition ++ "/" ++ fileentry.filename) })
          readdir

instance {ε α : Type} [DecidableEq ε] [DecidableEq α] : DecidableEq (Except ε α) := by
  intro a b
  cases a with
  | ok x =>
      cases b with
      | ok y =>
          exact
            if h : x = y then isTrue (by rw [h])
            else isFalse (fun hh => h (by injection hh))
      | error f => exact isFalse (fun hh => by injection hh)
  | error e =>
      cases b with
      | ok y => exact isFalse (fun hh => by injection hh)
      | error f =>
          exact
            if h : e = f then isTrue (by rw [h])
            else isFalse (fun hh => h (by injection hh))

/-! ## Helper lemmas about the path model -/

/-- Every path heads its own ancestor list. -/
theorem mem_ancestorsAux_self (fuel : Nat) (l : List Comp) : l ∈ ancestorsAux fuel l := by
  cases fuel with
  | zero => simp [ancestorsAux]
  | succ f =>
      unfold ancestorsAux
      cases parentOfPath l <;> simp

/-- A non-empty path is among the ancestors of any extension of itself. -/
theorem mem_ancestorsAux_append (extra : List Comp) :
    ∀ (fuel : Nat) (l : List Comp), l ≠ [] → extra.length ≤ fuel →
      l ∈ ancestorsAux fuel (l ++ extra) := by
  induction extra using List.reverseRecOn with
  | nil =>
      intro fuel l _ _
      simpa using mem_ancestorsAux_self fuel l
  | append_singleton xs x ih =>
      intro fuel l hne hlen
      cases fuel with
      | zero => simp at hlen
      | succ f =>
          unfold ancestorsAux
          have hape : ¬ l ++ (xs ++ [x]) = [Comp.rootDir] := by
            intro hcontra
            have hlen1 : (l ++ (xs ++ [x])).length = 1 := by rw [hcontra]; rfl
            have : l.length = 0 := by
              simp [List.length_append] at hlen1
              omega
            exact hne (List.eq_nil_of_length_eq_zero this)
          have hpar : parentOfPath (l ++ (xs ++ [x])) = some ((l ++ (xs ++ [x])).dropLast) := by
            unfold parentOfPath
            rw [if_neg]
            push_neg
            exact ⟨by simp, hape⟩
          rw [hpar]
          have hdrop : (l ++ (xs ++ [x])).dropLast = l ++ xs := by
            rw [← List.append_assoc]
            exact List.dropLast_concat
          rw [hdrop]
          have hx : xs.length ≤ f := by
            simp at hlen
            omega
          exact List.mem_cons_of_mem _ (ih f l hne hx)

/-- The empty path is among the ancestors of any path that does not start
at the root. -/
theorem nil_mem_ancestorsAux :
    ∀ (fuel : Nat) (l : List Comp), l.length ≤ fuel → ¬ l.head? = some Comp.rootDir →
      [] ∈ ancestorsAux fuel l := by
  intro fuel
  induction fuel with
  | zero =>
      intro l hlen _
      have : l = [] := by
        cases l with
        | nil => rfl
        | cons a t => simp at hlen
      simp [this, ancestorsAux]
  | succ f ih =>
      intro l hlen hhead
      unfold ancestorsAux
      by_cases hc : l = [] ∨ l = [Comp.rootDir]
      · rcases hc with hc | hc
        · simp [parentOfPath, hc]
        · rw [hc] at hhead
          simp at hhead
      · have hpar : parentOfPath l = some l.dropLast := by
          unfold parentOfPath
          rw [if_neg hc]
        rw [hpar]
        push_neg at hc
        have hne : l ≠ [] := hc.1
        have hlen2 : l.dropLast.length ≤ f := by
          have : l.length ≥ 1 := by
            cases l with
            | nil => exact absurd rfl hne
            | cons a t => simp
          simp [List.length_dropLast]
          omega
        have hhead2 : ¬ l.dropLast.head? = some Comp.rootDir := by
          cases l with
          | nil => simp
          | cons a t =>
              cases t with
              | nil => simp
              | cons b t2 =>
                  intro habs
                  apply hhead
                  simpa [List.dropLast] using habs
        exact List.mem_cons_of_mem _ (ih l.dropLast hlen2 hhead2)

/-- Segment classification never yields the root component. -/
theorem parseSeg_ne_root (s : String) : parseSeg s ≠ Comp.rootDir := by
  unfold parseSeg
  by_cases h1 : s = ".." <;> by_cases h2 : s = "." <;> simp [h1, h2]

/-- A path string that does not begin with `/` parses with no root
component anywhere. -/
theorem parse_rel_no_root (s : String) (h : beginsWithSlash s = false) :
    ∀ c ∈ parsePath s, c ≠ Comp.rootDir := by
  intro c hc
  have hmap : ∀ c2 ∈ (segsOf s).map parseSeg, c2 ≠ Comp.rootDir := by
    intro c2 hc2
    rcases List.mem_map.mp hc2 with ⟨seg, _, hseg⟩
    rw [← hseg]
    exact parseSeg_ne_root seg
  unfold parsePath at hc
  simp only [h, Bool.false_eq_true, if_false] at hc
  split at hc
  · rename_i rest heq
    rcases List.mem_cons.mp hc with hcd | hfil
    · rw [hcd]; simp
    · have : c ∈ rest := (List.mem_filter.mp hfil).1
      exact hmap c (by rw [heq]; exact List.mem_cons_of_mem _ this)
  · exact hmap c (List.mem_filter.mp hc).1

/-- The head of a relative parse is never the root component. -/
theorem parse_rel_head (s : String) (h : beginsWithSlash s = false) :
    ¬ (parsePath s).head? = some Comp.rootDir := by
  intro habs
  cases hp : parsePath s with
  | nil => rw [hp] at habs; simp at habs
  | cons c t =>
      rw [hp] at habs
      simp at habs
      exact parse_rel_no_root s h c (by rw [hp]; exact List.mem_cons_self c t) habs

/-- A path string beginning with `/` parses to a root-headed component
list. -/
theorem parse_abs_head (s : String) (h : beginsWithSlash s = true) :
    (parsePath s).head? = some Comp.rootDir := by
  unfold parsePath
  simp [h]

/-- Joining a rooted path replaces the receiver (`PathBuf::push` of an
absolute path). -/
theorem pathJoin_absolute (a l : List Comp) (h : l.head? = some Comp.rootDir) :
    pathJoin a l = l := by
  unfold pathJoin
  rw [if_pos h]

/-- The containment check accepts every candidate whose string does not
begin with `/`, whatever the root: the root is textually an ancestor of
the un-canonicalised join. -/
theorem isInBasepathB_rel_true (base : List Comp) (key : String)
    (h : beginsWithSlash key = false) : isInBasepathB base (parsePath key) = true := by
  unfold isInBasepathB
  rw [List.any_eq_true]
  refine ⟨base, ?_, by simp⟩
  have hhead := parse_rel_head key h
  unfold pathJoin
  rw [if_neg (fun hh => hhead hh)]
  by_cases hb : base = []
  · rw [if_pos hb, hb]
    unfold ancestors
    exact nil_mem_ancestorsAux _ _ (le_refl _) hhead
  · rw [if_neg hb]
    unfold ancestors
    apply mem_ancestorsAux_append _ _ _ hb
    simp

/-- Members of a successful `exceptMap` come from applying the function to
a member of the input. -/
theorem exceptMap_ok_mem {α β : Type} (f : α → Except Error β) :
    ∀ (l : List α) (ys : List β), exceptMap f l = Except.ok ys →
      ∀ y ∈ ys, ∃ x ∈ l, f x = Except.ok y := by
  intro l
  induction l with
  | nil =>
      intro ys h y hy
      unfold exceptMap at h
      injection h with h
      rw [← h] at hy
      simp at hy
  | cons a rest ih =>
      intro ys h y hy
      unfold exceptMap at h
      cases hfa : f a with
      | error e => rw [hfa] at h; exact absurd h (by simp)
      | ok b =>
          rw [hfa] at h
          cases hrec : exceptMap f rest with
          | error e => rw [hrec] at h; exact absurd h (by simp)
          | ok bs =>
              rw [hrec] at h
              injection h with h
              rw [← h] at hy
              rcases List.mem_cons.mp hy with hyb | hybs
              · exact ⟨a, List.mem_cons_self a rest, by rw [hfa, hyb]⟩
              · rcases ih bs hrec y hybs with ⟨x, hx, hfx⟩
                exact ⟨x, List.mem_cons_of_mem a hx, hfx⟩

/-- Dropping every leading slash leaves a string with no leading slash. -/
theorem trim_no_leading_slash (s : String) :
    beginsWithSlash (trimLeadingSlashes s) = false := by
  unfold trimLeadingSlashes beginsWithSlash
  show (match (s.data.dropWhile (fun c => decide (c = Char.ofNat 47))) with
    | [] => false
    | c :: _ => decide (c = Char.ofNat 47)) = false
  induction s.data with
  | nil => rfl
  | cons c rest ih =>
      by_cases hc : c = Char.ofNat 47
      · simpa [List.dropWhile, hc] using ih
      · simp [List.dropWhile, hc]

/-- Unfolding equation for `lookupRaw` on a cons cell. -/
theorem lookupRaw_cons (e : List String × Node) (rest : List (List String × Node))
    (p : List String) :
    lookupRaw (e :: rest) p = if e.fst = p then some e.snd else lookupRaw rest p := rfl

/-- Removing key `q` does not change lookups at other keys. -/
theorem lookupRaw_removeKey_ne (p q : List String) (h : ¬ p = q) :
    ∀ l, lookupRaw (removeKey l q) p = lookupRaw l p := by
  intro l
  induction l with
  | nil => rfl
  | cons a rest ih =>
      unfold removeKey
      by_cases ha : a.fst = q
      · have hap : ¬ a.fst = p := by
          rw [ha]
          exact fun hh => h hh.symm
        rw [if_pos ha, ih, lookupRaw_cons, if_neg hap]
      · rw [if_neg ha, lookupRaw_cons, lookupRaw_cons]
        by_cases hap : a.fst = p
        · rw [if_pos hap, if_pos hap]
        · rw [if_neg hap, if_neg hap, ih]

/-- Lookup after a replace-style insert: the inserted node at its key,
unchanged lookups elsewhere. -/
theorem lookupRaw_insert (l : List (List String × Node)) (q p : List String) (n : Node) :
    lookupRaw ((q, n) :: removeKey l q) p =
      if p = q then some n else lookupRaw l p := by
  rw [lookupRaw_cons]
  by_cases hpq : p = q
  · rw [if_pos hpq, if_pos (show ((q, n) : List String × Node).fst = p from hpq.symm)]
  · rw [if_neg hpq, if_neg (show ¬ ((q, n) : List String × Node).fst = p from
      fun hh => hpq hh.symm)]
    exact lookupRaw_removeKey_ne p q hpq l

/-- Resolution only inspects the filesystem through directory membership,
so it is unchanged by any update that preserves `isDirAtNames`. -/
theorem walkAux_congr (fs fs2 : Fs)
    (h : ∀ p, isDirAtNames fs2 p = isDirAtNames fs p) :
    ∀ (comps : List Comp) (stack : List String),
      walkAux fs2 stack comps = walkAux fs stack comps := by
  intro comps
  induction comps with
  | nil => intro stack; rfl
  | cons c rest ih =>
      intro stack
      unfold walkAux
      rw [h stack]
      by_cases hd : isDirAtNames fs stack
      · simp only [hd, if_true]
        cases c with
        | normal s =>
            by_cases hr : rest.isEmpty <;> simp [hr, ih]
        | parentDir => exact ih stack.dropLast
        | curDir => exact ih stack
        | rootDir => exact ih []
      · simp [hd]

/-- Writing file contents at a key that was not previously a directory
preserves the directory predicate everywhere. -/
theorem isDirAtNames_write (fs : Fs) (q : List String) (contents : List Nat)
    (hq : ¬ lookupFs fs q = some Node.dir) :
    ∀ p, isDirAtNames
        ⟨(q, Node.file contents) :: removeKey fs.entries q,
          fs.statDenied, fs.readDenied⟩ p = isDirAtNames fs p := by
  intro p
  unfold isDirAtNames lookupFs
  show (match lookupRaw ((q, Node.file contents) :: removeKey fs.entries q) p with
    | some Node.dir => true
    | _ => false) = _
  rw [lookupRaw_insert]
  by_cases hpq : p = q
  · rw [if_pos hpq, hpq]
    unfold lookupFs at hq
    cases hl : lookupRaw fs.entries q with
    | none => simp
    | some n =>
        cases n with
        | dir => exact absurd hl hq
        | file c => simp
  · rw [if_neg hpq]

/-- Resolution at the level of whole paths is also unchanged by updates
that preserve the directory predicate. -/
theorem walkPath_congr (fs fs2 : Fs)
    (h : ∀ p, isDirAtNames fs2 p = isDirAtNames fs p) (l : List Comp) :
    walkPath fs2 l = walkPath fs l := by
  unfold walkPath
  cases l with
  | nil => rfl
  | cons c rest =>
      cases c with
      | rootDir => exact walkAux_congr fs fs2 h rest []
      | curDir => rfl
      | parentDir => rfl
      | normal s => rfl

/-- A successful lookup means the pair is recorded. -/
theorem lookupRaw_mem :
    ∀ (l : List (List String × Node)) (p : List String) (n : Node),
      lookupRaw l p = some n → (p, n) ∈ l := by
  intro l
  induction l with
  | nil => intro p n h; exact absurd h (by simp [lookupRaw])
  | cons a rest ih =>
      intro p n h
      rw [lookupRaw_cons] at h
      by_cases ha : a.fst = p
      · rw [if_pos ha] at h
        injection h with h2
        have : a = (p, n) := by
          cases a
          simp only [Prod.mk.injEq]
          exact ⟨ha, h2⟩
        rw [← this]
        exact List.mem_cons_self a rest
      · rw [if_neg ha] at h
        exact List.mem_cons_of_mem a (ih p n h)

/-- The directory predicate is exactly a successful directory lookup. -/
theorem isDirAtNames_iff (fs : Fs) (p : List String) :
    isDirAtNames fs p = true ↔ lookupFs fs p = some Node.dir := by
  unfold isDirAtNames
  cases h : lookupFs fs p with
  | none => simp
  | some n => cases n <;> simp

/-- Well-formedness of a filesystem: every proper prefix of every recorded
path is itself recorded as a directory (true of any real directory tree). -/
def wfFsB (fs : Fs) : Bool :=
  fs.entries.all (fun e =>
    (List.range e.fst.length).all (fun i => isDirAtNames fs (e.fst.take i)))

/-- In a well-formed filesystem, proper prefixes of recorded paths are
directories. -/
theorem wf_take_dir (fs : Fs) (hwf : wfFsB fs = true) (p : List String) (n : Node)
    (hmem : lookupFs fs p = some n) :
    ∀ i, i < p.length → isDirAtNames fs (p.take i) = true := by
  intro i hi
  have hpm : (p, n) ∈ fs.entries := lookupRaw_mem fs.entries p n hmem
  have hall := List.all_eq_true.mp hwf (p, n) hpm
  exact List.all_eq_true.mp hall i (List.mem_range.mpr hi)

/-- In a well-formed filesystem with a root directory, the parent of a
directory is a directory. -/
theorem wf_dropLast_dir (fs : Fs) (hwf : wfFsB fs = true)
    (hroot : isDirAtNames fs [] = true) (st : List String)
    (hst : isDirAtNames fs st = true) : isDirAtNames fs st.dropLast = true := by
  cases hstn : st with
  | nil => simpa using hroot
  | cons a t =>
      rw [hstn] at hst
      have hlk := (isDirAtNames_iff fs (a :: t)).mp hst
      have htake := wf_take_dir fs hwf (a :: t) Node.dir hlk ((a :: t).length - 1) (by simp)
      rw [← List.dropLast_eq_take] at htake
      exact htake

/-- When resolution succeeds on a component list ending in `..`, the
result is the parent of a directory the walk visited. -/
theorem walkAux_last_parent (fs : Fs) :
    ∀ (comps : List Comp) (stack q : List String),
      comps.getLast? = some Comp.parentDir →
      walkAux fs stack comps = some q →
      ∃ st, isDirAtNames fs st = true ∧ q = st.dropLast := by
  intro comps
  induction comps with
  | nil => intro stack q h _; simp at h
  | cons c rest ih =>
      intro stack q hlast hwalk
      unfold walkAux at hwalk
      by_cases hd : isDirAtNames fs stack
      · rw [if_pos hd] at hwalk
        cases c with
        | normal s =>
            cases rest with
            | nil => simp at hlast
            | cons r rs =>
                rw [List.getLast?_cons_cons] at hlast
                simp only [List.isEmpty_cons, if_false, Bool.false_eq_true] at hwalk
                exact ih (stack ++ [s]) q hlast hwalk
        | parentDir =>
            cases rest with
            | nil =>
                unfold walkAux at hwalk
                injection hwalk with hq
                exact ⟨stack, hd, hq.symm⟩
            | cons r rs =>
                rw [List.getLast?_cons_cons] at hlast
                exact ih stack.dropLast q hlast hwalk
        | curDir =>
            cases rest with
            | nil => simp at hlast
            | cons r rs =>
                rw [List.getLast?_cons_cons] at hlast
                exact ih stack q hlast hwalk
        | rootDir =>
            cases rest with
            | nil => simp at hlast
            | cons r rs =>
                rw [List.getLast?_cons_cons] at hlast
                exact ih [] q hlast hwalk
      · rw [if_neg hd] at hwalk
        exact absurd hwalk (by simp)

/-- The absolute path whose segments are the given names. -/
def absPathOfNames (names : List String) : List Comp :=
  Comp.rootDir :: names.map Comp.normal

/-- Joining onto a root-headed path yields a root-headed path. -/
theorem pathJoin_head_root (base b : List Comp) (hb : base.head? = some Comp.rootDir) :
    (pathJoin base b).head? = some Comp.rootDir := by
  unfold pathJoin
  by_cases h1 : b.head? = some Comp.rootDir
  · rw [if_pos h1]; exact h1
  · rw [if_neg h1]
    have hbne : ¬ base = [] := by
      intro hh
      rw [hh] at hb
      simp at hb
    rw [if_neg hbne]
    cases base with
    | nil => exact absurd rfl hbne
    | cons a t =>
        simp only [List.head?_cons] at hb ⊢
        rw [List.cons_append]  
        simpa using hb
  
/-- Decompose a successful `put_file`: the containment check passed and
the write succeeded. -/
theorem put_file_ok_elim (self : LocalFs) (key : String) (contents : List Nat) (fs fs2 : Fs)
    (h : LocalFs.put_file self key contents fs = Except.ok fs2) :
    isInBasepathB self.base_path (pathJoin self.base_path (parsePath key)) = true ∧
    fsWrite fs (pathJoin self.base_path (parsePath key)) contents = Except.ok fs2 := by
  unfold LocalFs.put_file LocalFs.target_path_from_key at h
  by_cases hc : isInBasepathB self.base_path (pathJoin self.base_path (parsePath key)) = true
  · refine ⟨hc, ?_⟩
    rw [if_neg (not_not_intro hc)] at h
    cases hw : fsWrite fs (pathJoin self.base_path (parsePath key)) contents with
    | ok f2 =>
        rw [hw] at h
        injection h with h2
        rw [h2]
    | error e =>
        rw [hw] at h
        exact absurd h (by simp)
  · rw [if_pos hc] at h
    exact absurd h (by simp)

/-- Decompose a successful `fsWrite`: resolution succeeded, the resolved
target was not a directory, and the result is exactly the insert. -/
theorem fsWrite_ok_elim (fs : Fs) (l : List Comp) (contents : List Nat) (fs2 : Fs)
    (hsd : fs.statDenied = [])
    (h : fsWrite fs l contents = Except.ok fs2) :
    ∃ q, walkPath fs l = some q ∧ ¬ lookupFs fs q = some Node.dir ∧
      fs2 = ⟨(q, Node.file contents) :: removeKey fs.entries q,
        fs.statDenied, fs.readDenied⟩ := by
  unfold fsWrite at h
  cases hwp : walkPath fs l with
  | none =>
      rw [hwp] at h
      exact absurd h (by simp)
  | some q =>
      rw [hwp, hsd] at h
      simp only [List.any_nil, Bool.false_eq_true, if_false] at h
      cases hl : lookupFs fs q with
      | none =>
          rw [hl] at h
          injection h with h2
          refine ⟨q, rfl, by simp [hl], ?_⟩
          rw [hsd]
          exact h2.symm
      | some n =>
          cases n with
          | dir =>
              rw [hl] at h
              exact absurd h (by simp)
          | file c =>
              rw [hl] at h
              injection h with h2
              refine ⟨q, rfl, by simp [hl], ?_⟩
              rw [hsd]
              exact h2.symm

/-- Unfolding equation for `fsRead` once resolution is known. -/
theorem fsRead_eq_of_walk (fs : Fs) (l : List Comp) (q : List String)
    (hwp : walkPath fs l = some q) :
    fsRead fs l =
      (if fs.statDenied.any (fun r => decide (r = q)) then
        Except.error IoErr.permissionDenied
      else
        match lookupFs fs q with
        | some (Node.file c) => Except.ok c
        | some Node.dir => Except.error IoErr.isADirectory
        | none => Except.error IoErr.notFound) := by
  unfold fsRead
  rw [hwp]

/-- Unfolding equation for `fsMeta` once resolution is known. -/
theorem fsMeta_eq_of_walk (fs : Fs) (l : List Comp) (q : List String)
    (hwp : walkPath fs l = some q) :
    fsMeta fs l =
      (if fs.statDenied.any (fun r => decide (r = q)) then
        Except.error IoErr.permissionDenied
      else
        match lookupFs fs q with
        | some n => Except.ok n
        | none => Except.error IoErr.notFound) := by
  unfold fsMeta
  rw [hwp]

/-- Reading back the key just written returns exactly the written bytes. -/
theorem fsRead_after_write (fs : Fs) (l : List Comp) (contents : List Nat) (q : List String)
    (hsd : fs.statDenied = [])
    (hwp : walkPath fs l = some q)
    (hndir : ¬ lookupFs fs q = some Node.dir) :
    fsRead ⟨(q, Node.file contents) :: removeKey fs.entries q,
      fs.statDenied, fs.readDenied⟩ l = Except.ok contents := by
  have hcongr := isDirAtNames_write fs q contents hndir
  have hwp2 : walkPath ⟨(q, Node.file contents) :: removeKey fs.entries q,
      fs.statDenied, fs.readDenied⟩ l = some q := by
    rw [walkPath_congr _ _ hcongr l]
    exact hwp
  rw [fsRead_eq_of_walk _ l q hwp2]
  have hlk : lookupFs ⟨(q, Node.file contents) :: removeKey fs.entries q,
      fs.statDenied, fs.readDenied⟩ q = some (Node.file contents) := by
    unfold lookupFs
    show lookupRaw ((q, Node.file contents) :: removeKey fs.entries q) q = _
    rw [lookupRaw_insert]
    simp
  have hany : (Fs.mk ((q, Node.file contents) :: removeKey fs.entries q)
      fs.statDenied fs.readDenied).statDenied.any (fun r => decide (r = q)) = false := by
    show fs.statDenied.any _ = false
    rw [hsd]
    rfl
  rw [hany]
  simp only [Bool.false_eq_true, if_false]
  rw [hlk]

/-- Stat of the key just written reports the written file. -/
theorem fsMeta_after_write (fs : Fs) (l : List Comp) (contents : List Nat) (q : List String)
    (hsd : fs.statDenied = [])
    (hwp : walkPath fs l = some q)
    (hndir : ¬ lookupFs fs q = some Node.dir) :
    fsMeta ⟨(q, Node.file contents) :: removeKey fs.entries q,
      fs.statDenied, fs.readDenied⟩ l = Except.ok (Node.file contents) := by
  have hcongr := isDirAtNames_write fs q contents hndir
  have hwp2 : walkPath ⟨(q, Node.file contents) :: removeKey fs.entries q,
      fs.statDenied, fs.readDenied⟩ l = some q := by
    rw [walkPath_congr _ _ hcongr l]
    exact hwp
  rw [fsMeta_eq_of_walk _ l q hwp2]
  have hlk : lookupFs ⟨(q, Node.file contents) :: removeKey fs.entries q,
      fs.statDenied, fs.readDenied⟩ q = some (Node.file contents) := by
    unfold lookupFs
    show lookupRaw ((q, Node.file contents) :: removeKey fs.entries q) q = _
    rw [lookupRaw_insert]
    simp
  have hany : (Fs.mk ((q, Node.file contents) :: removeKey fs.entries q)
      fs.statDenied fs.readDenied).statDenied.any (fun r => decide (r = q)) = false := by
    show fs.statDenied.any _ = false
    rw [hsd]
    rfl
  rw [hany]
  simp only [Bool.false_eq_true, if_false]
  rw [hlk]

/-- Resolution equation on a rooted component list. -/
theorem walkPath_cons_root (fs : Fs) (rest : List Comp) :
    walkPath fs (Comp.rootDir :: rest) = walkAux fs [] rest := rfl

/-- A list's last element is a member. -/
theorem mem_of_getLast? {α : Type} :
    ∀ (l : List α) (a : α), l.getLast? = some a → a ∈ l := by
  intro l
  induction l with
  | nil => intro a h; simp at h
  | cons x t ih =>
      intro a h
      cases t with
      | nil =>
          simp at h
          simp [h]
      | cons y ts =>
          rw [List.getLast?_cons_cons] at h
          exact List.mem_cons_of_mem x (ih a h)

/-- The file name of a path ending in a normal segment. -/
theorem fileName_of_getLast_normal (l : List Comp) (s : String)
    (h : l.getLast? = some (Comp.normal s)) : fileNameOfPath l = some s := by
  unfold fileNameOfPath
  rw [h]

/-- The backend target for a root of plain named segments is root-headed
and free of root and `.` components after the head. -/
theorem target_shape (bs : List String) (key : String) :
    ∃ tail, pathJoin (absPathOfNames bs) (parsePath key) = Comp.rootDir :: tail ∧
      ∀ c ∈ tail, ¬ c = Comp.rootDir ∧ ¬ c = Comp.curDir := by
  cases hbw : beginsWithSlash key with
  | true =>
      have hp : parsePath key = Comp.rootDir ::
          ((segsOf key).map parseSeg).filter (fun c => decide (¬ c = Comp.curDir)) := by
        unfold parsePath
        simp [hbw]
      have hhead : (parsePath key).head? = some Comp.rootDir := parse_abs_head key hbw
      rw [pathJoin_absolute _ _ hhead, hp]
      refine ⟨_, rfl, ?_⟩
      intro c hc
      have hcm := List.mem_filter.mp hc
      constructor
      · rcases List.mem_map.mp hcm.1 with ⟨seg, _, hseg⟩
        rw [← hseg]
        exact parseSeg_ne_root seg
      · simpa using hcm.2
  | false =>
      have hhead := parse_rel_head key hbw
      unfold pathJoin
      rw [if_neg hhead]
      rw [if_neg (show ¬ absPathOfNames bs = [] by simp [absPathOfNames])]
      refine ⟨bs.map Comp.normal ++
        (parsePath key).filter (fun c => decide (¬ c = Comp.curDir)), ?_, ?_⟩
      · simp [absPathOfNames]
      · intro c hc
        rcases List.mem_append.mp hc with hcl | hcr
        · rcases List.mem_map.mp hcl with ⟨s, _, hs⟩
          rw [← hs]
          constructor <;> simp
        · have hcm := List.mem_filter.mp hcr
          exact ⟨parse_rel_no_root key hbw c hcm.1, by simpa using hcm.2⟩

/-- When a write through the backend target succeeded (the resolved path
was not a directory), the target's final component is a normal segment, so
`file_name` is defined. -/
theorem target_last_normal (bs : List String) (key : String) (fs : Fs) (q : List String)
    (hwf : wfFsB fs = true) (hroot : isDirAtNames fs [] = true)
    (hwp : walkPath fs (pathJoin (absPathOfNames bs) (parsePath key)) = some q)
    (hndir : ¬ lookupFs fs q = some Node.dir) :
    ∃ s, fileNameOfPath (pathJoin (absPathOfNames bs) (parsePath key)) = some s := by
  rcases target_shape bs key with ⟨tail, htail, helem⟩
  rw [htail] at hwp ⊢
  rw [walkPath_cons_root] at hwp
  cases htl : tail with
  | nil =>
      rw [htl] at hwp
      unfold walkAux at hwp
      injection hwp with hq
      exfalso
      apply hndir
      rw [← hq]
      exact (isDirAtNames_iff fs []).mp hroot
  | cons c ts =>
      have hcl : (c :: ts).getLast? = some ((c :: ts).getLast (by simp)) :=
        List.getLast?_eq_getLast _ _
      set cl := (c :: ts).getLast (by simp) with hcldef
      have hclmem : cl ∈ tail := by
        rw [htl]
        exact mem_of_getLast? _ _ hcl
      have hclprops := helem cl hclmem
      cases hclc : cl with
      | rootDir => exact absurd hclc hclprops.1
      | curDir => exact absurd hclc hclprops.2
      | normal s =>
          refine ⟨s, fileName_of_getLast_normal _ s ?_⟩
          rw [List.getLast?_cons_cons, hcl, hclc]
      | parentDir =>
          exfalso
          rw [htl] at hwp
          have hlast2 : (c :: ts).getLast? = some Comp.parentDir := by
            rw [hcl, hclc]
          rcases walkAux_last_parent fs (c :: ts) [] q hlast2 hwp with ⟨st, hstdir, hq⟩
          have hqdir : isDirAtNames fs q = true := by
            rw [hq]
            exact wf_dropLast_dir fs hwf hroot st hstdir
          exact hndir ((isDirAtNames_iff fs q).mp hqdir)

/-! ## Claim theorems -/

/-- C6: for every key and byte sequence, once `put_file` on a `LocalFs`
with a clean absolute root succeeds over a well-formed race-free
filesystem, `get_file` of the same key returns exactly the written bytes
and `get_data` reports `size = Some(len)`. -/
theorem c6_write_read_roundtrip (bs : List String) (key : String) (contents : List Nat)
    (fs fs2 : Fs)
    (hwf : wfFsB fs = true)
    (hroot : isDirAtNames fs [] = true)
    (hsd : fs.statDenied = [])
    (hput : LocalFs.put_file ⟨absPathOfNames bs⟩ key contents fs = Except.ok fs2) :
    LocalFs.get_file ⟨absPathOfNames bs⟩ key fs2 = Except.ok contents ∧
    ∃ fd, LocalFs.get_data ⟨absPathOfNames bs⟩ key fs2 = Except.ok fd ∧
      fd.size = some contents.length := by
  obtain ⟨hcheck, hw⟩ := put_file_ok_elim ⟨absPathOfNames bs⟩ key contents fs fs2 hput
  obtain ⟨q, hwp, hndir, hfs2⟩ :=
    fsWrite_ok_elim fs (pathJoin (absPathOfNames bs) (parsePath key)) contents fs2 hsd hw
  have hthead : (pathJoin (absPathOfNames bs) (parsePath key)).head? = some Comp.rootDir :=
    pathJoin_head_root _ _ (by simp [absPathOfNames])
  have hcheckKey : isInBasepathB (absPathOfNames bs) (parsePath key) = true := by
    unfold isInBasepathB at hcheck ⊢
    rw [pathJoin_absolute _ _ hthead] at hcheck
    exact hcheck
  constructor
  · simp only [LocalFs.get_file, LocalFs.target_path_from_key]
    rw [if_neg (not_not_intro hcheckKey)]
    rw [hfs2]
    rw [fsRead_after_write fs (pathJoin (absPathOfNames bs) (parsePath key))
      contents q hsd hwp hndir]
  · obtain ⟨s, hfn⟩ := target_last_normal bs key fs q hwf hroot hwp hndir
    have hmeta : fsMeta fs2 (pathJoin (absPathOfNames bs) (parsePath key)) =
        Except.ok (Node.file contents) := by
      rw [hfs2]
      exact fsMeta_after_write fs _ contents q hsd hwp hndir
    have hexists : pathExists fs2 (pathJoin (absPathOfNames bs) (parsePath key)) = true := by
      unfold pathExists statPath
      rw [hmeta]
      rfl
    have hsz : (statPath fs2 (pathJoin (absPathOfNames bs) (parsePath key))).map nodeLen =
        some contents.length := by
      unfold statPath
      rw [hmeta]
      rfl
    refine ⟨⟨s, (parentOfPath (pathJoin (absPathOfNames bs) (parsePath key))).getD
      (absPathOfNames bs), some contents.length⟩, ?_, rfl⟩
    simp only [LocalFs.get_data]
    rw [if_neg (not_not_intro hexists)]
    rw [hfn]
    rw [hsz]

/-- Root `/tmp/x` used by several concrete scenarios. -/
def rootTmpX : List Comp := [Comp.rootDir, Comp.normal "tmp", Comp.normal "x"]

/-- A filesystem with directories `/`, `/tmp`, `/tmp/x`, `/etc` and the
two-byte file `/etc/passwd`. -/
def etcFs : Fs :=
  ⟨[([], Node.dir), (["tmp"], Node.dir), (["tmp", "x"], Node.dir),
    (["etc"], Node.dir), (["etc", "passwd"], Node.file [42, 43])], [], []⟩

/-- A filesystem whose directory `/srv/d` exists but cannot be read
(`read_dir` fails with permission denied). -/
def unreadableDirFs : Fs :=
  ⟨[([], Node.dir), (["srv"], Node.dir), (["srv", "d"], Node.dir)], [], [["srv", "d"]]⟩

/-- A filesystem whose file `/t/f.txt` exists but cannot be stat-ed. -/
def statDeniedFs : Fs :=
  ⟨[([], Node.dir), (["t"], Node.dir), (["t", "f.txt"], Node.file [1, 2, 3])],
    [["t", "f.txt"]], []⟩

/-- A root `/data` holding exactly one file `test.txt` with the given
bytes. -/
def listingFs (contents : List Nat) : Fs :=
  ⟨[([], Node.dir), (["data"], Node.dir), (["data", "test.txt"], Node.file contents)], [], []⟩

/-- A root `/tmp/x` holding exactly one file `test.txt`. -/
def escapeListFs : Fs :=
  ⟨[([], Node.dir), (["tmp"], Node.dir), (["tmp", "x"], Node.dir),
    (["tmp", "x", "test.txt"], Node.file [7])], [], []⟩

/-- An empty root `/srv`. -/
def plainRootFs : Fs := ⟨[([], Node.dir), (["srv"], Node.dir)], [], []⟩

/-- C1: the containment decision does not reject traversal: with root
`/tmp/x` and key `../../../etc/passwd`, `is_in_basepath` answers
`Ok(true)` on both backends (the root is textually an ancestor of the
un-canonicalised join), and `get_file` then reads `/etc/passwd` — outside
the root — instead of returning `NotAuthorized`. -/
theorem c1_traversal_escapes_root :
    LocalFs.is_in_basepath ⟨rootTmpX⟩ (parsePath "../../../etc/passwd") = Except.ok true ∧
    TempDir.is_in_basepath ⟨rootTmpX⟩ "../../../etc/passwd" = Except.ok true ∧
    LocalFs.get_file ⟨rootTmpX⟩ "../../../etc/passwd" etcFs = Except.ok [42, 43] ∧
    TempDir.get_file ⟨rootTmpX⟩ "../../../etc/passwd" etcFs = Except.ok [42, 43] := by
  refine ⟨by decide, by decide, by decide, by decide⟩

/-- C2: `get_data` never returns `NotAuthorized` — both backends discard
the containment Boolean — so an existing out-of-root target (root
`/tmp/x`, key `/etc/passwd`) yields its metadata with `Ok`; and on
`TempDir` an absent target fails with `Io` (through `From<io::Error>`),
not `NotFound` (while `LocalFs` does return `NotFound` there). -/
theorem c2_get_data_error_kinds :
    LocalFs.get_data ⟨rootTmpX⟩ "/etc/passwd" etcFs =
      Except.ok ⟨"passwd", [Comp.rootDir, Comp.normal "etc"], some 2⟩ ∧
    TempDir.get_data ⟨rootTmpX⟩ "/etc/passwd" etcFs =
      Except.ok ⟨"passwd", [Comp.rootDir, Comp.normal "etc"], some 2⟩ ∧
    TempDir.get_data ⟨rootTmpX⟩ "nope.txt" etcFs =
      Except.error (Error.Io (ioMsg IoErr.notFound)) ∧
    LocalFs.get_data ⟨rootTmpX⟩ "nope.txt" etcFs =
      Except.error (Error.NotFound ("Can" ++ squote ++ "t find nope.txt")) := by
  refine ⟨by decide, by decide, by decide, by decide⟩

/-- C3: for every root and every key string that does not begin with `/`,
the containment check of both backends answers `Ok(true)` — including
keys made of `..` segments — because it searches the textual ancestor
chain of the un-canonicalised join for the root. -/
theorem c3_relative_key_containment_accepts (base td : List Comp) (key : String)
    (h : beginsWithSlash key = false) :
    LocalFs.is_in_basepath ⟨base⟩ (parsePath key) = Except.ok true ∧
    TempDir.is_in_basepath ⟨td⟩ key = Except.ok true := by
  constructor
  · simp only [LocalFs.is_in_basepath]
    rw [isInBasepathB_rel_true base key h]
  · simp only [TempDir.is_in_basepath, TempDir.target_path_from_key]
    have hb := isInBasepathB_rel_true td key h
    unfold isInBasepathB at hb
    rw [hb]

/-- Witness for C3 at root `/x` and key `../../../etc/passwd`. -/
theorem c3_relative_key_containment_accepts_witness :
    LocalFs.is_in_basepath ⟨[Comp.rootDir, Comp.normal "x"]⟩
      (parsePath "../../../etc/passwd") = Except.ok true ∧
    TempDir.is_in_basepath ⟨[Comp.rootDir, Comp.normal "x"]⟩
      "../../../etc/passwd" = Except.ok true :=
  c3_relative_key_containment_accepts [Comp.rootDir, Comp.normal "x"]
    [Comp.rootDir, Comp.normal "x"] "../../../etc/passwd" (by decide)

/-- C4 counterexample: with root `/tmp/x`, the absolute key `/etc/passwd`
is not joined under the root — `target_path_from_key` returns
`/etc/passwd` itself, not `/tmp/x/etc/passwd`, and `get_file` rejects it
rather than operating under the root. -/
theorem c4_absolute_key_not_joined :
    LocalFs.target_path_from_key ⟨rootTmpX⟩ "/etc/passwd" = parsePath "/etc/passwd" ∧
    ¬ LocalFs.target_path_from_key ⟨rootTmpX⟩ "/etc/passwd" = parsePath "/tmp/x/etc/passwd" ∧
    LocalFs.get_file ⟨rootTmpX⟩ "/etc/passwd" etcFs =
      Except.error (Error.NotAuthorized "Path is outside of base path") := by
  refine ⟨by decide, by decide, by decide⟩

/-- C4 amended: a syntactically absolute key replaces the root in
`PathBuf::join` — `target_path_from_key` returns the key's own path on
both backends — and the operations then act on that path, rejecting with
`NotAuthorized` whenever the containment check fails on it. -/
theorem c4_absolute_key_replaces_root (base td : List Comp) (key : String) (fs : Fs)
    (h : beginsWithSlash key = true) :
    LocalFs.target_path_from_key ⟨base⟩ key = parsePath key ∧
    TempDir.target_path_from_key ⟨td⟩ key = parsePath key ∧
    (isInBasepathB base (parsePath key) = false →
      LocalFs.get_file ⟨base⟩ key fs =
        Except.error (Error.NotAuthorized "Path is outside of base path")) := by
  have habs := parse_abs_head key h
  refine ⟨?_, ?_, ?_⟩
  · simp only [LocalFs.target_path_from_key]
    exact pathJoin_absolute _ _ habs
  · simp only [TempDir.target_path_from_key]
    exact pathJoin_absolute _ _ habs
  · intro hfalse
    simp only [LocalFs.get_file, LocalFs.target_path_from_key]
    rw [if_pos (show ¬ isInBasepathB base (parsePath key) = true by rw [hfalse]; simp)]

/-- Witness for C4 amended at root `/tmp/x` and key `/etc/passwd`. -/
theorem c4_absolute_key_replaces_root_witness :
    LocalFs.target_path_from_key ⟨rootTmpX⟩ "/etc/passwd" = parsePath "/etc/passwd" ∧
    TempDir.target_path_from_key ⟨rootTmpX⟩ "/etc/passwd" = parsePath "/etc/passwd" ∧
    (isInBasepathB rootTmpX (parsePath "/etc/passwd") = false →
      LocalFs.get_file ⟨rootTmpX⟩ "/etc/passwd" etcFs =
        Except.error (Error.NotAuthorized "Path is outside of base path")) :=
  c4_absolute_key_replaces_root rootTmpX rootTmpX "/etc/passwd" etcFs (by decide)

/-- C5: not every failure is a typed return value: `TempDir::delete_file`
is `todo!` and panics (modelled as `none`), and `TempDir::list_dir` turns
a failed `read_dir` on an existing directory into a successful empty
listing, while `LocalFs::list_dir` reports the same failure as an `Io`
error. -/
theorem c5_untyped_failures :
    TempDir.delete_file ⟨[Comp.rootDir, Comp.normal "t"]⟩ "file.txt" unreadableDirFs = none ∧
    LocalFs.list_dir ⟨[Comp.rootDir, Comp.normal "srv"]⟩ (some "d") unreadableDirFs =
      Except.error (Error.Io (ioMsg IoErr.permissionDenied)) ∧
    TempDir.list_dir ⟨[Comp.rootDir, Comp.normal "srv"]⟩ (some "d") unreadableDirFs =
      Except.ok [] := by
  refine ⟨rfl, by decide, by decide⟩

/-- Witness for C6: writing `[1, 2]` to `test.txt` under root `/srv` and
reading it back. -/
theorem c6_write_read_roundtrip_witness :
    LocalFs.get_file ⟨absPathOfNames ["srv"]⟩ "test.txt"
      ⟨[(["srv", "test.txt"], Node.file [1, 2]), ([], Node.dir), (["srv"], Node.dir)],
        [], []⟩ = Except.ok [1, 2] ∧
    ∃ fd, LocalFs.get_data ⟨absPathOfNames ["srv"]⟩ "test.txt"
      ⟨[(["srv", "test.txt"], Node.file [1, 2]), ([], Node.dir), (["srv"], Node.dir)],
        [], []⟩ = Except.ok fd ∧ fd.size = some ([1, 2] : List Nat).length :=
  c6_write_read_roundtrip ["srv"] "test.txt" [1, 2] plainRootFs
    ⟨[(["srv", "test.txt"], Node.file [1, 2]), ([], Node.dir), (["srv"], Node.dir)], [], []⟩
    (by decide) (by decide) rfl (by decide)

/-- C7 counterexample: an existing in-bounds file whose `stat` fails does
not make the lookup succeed with `size: None` on either backend —
`TempDir::get_data` fails the whole call with `Io`, and `LocalFs::get_data`
fails with `NotFound` because its `exists()` precheck uses the same
failing metadata call. -/
theorem c7_metadata_failure_not_none :
    TempDir.get_data ⟨[Comp.rootDir, Comp.normal "t"]⟩ "f.txt" statDeniedFs =
      Except.error (Error.Io (ioMsg IoErr.permissionDenied)) ∧
    LocalFs.get_data ⟨[Comp.rootDir, Comp.normal "t"]⟩ "f.txt" statDeniedFs =
      Except.error (Error.NotFound ("Can" ++ squote ++ "t find f.txt")) := by
  refine ⟨by decide, by decide⟩

/-- C7 amended: in a race-free execution neither backend ever reports
`size: None` on success — a metadata failure surfaces as an error of the
whole call (`Io` on `TempDir`, `NotFound` via the `exists()` precheck on
`LocalFs`), so every successful `get_data` carries `Some` size. -/
theorem c7_size_some_on_success (lfs : LocalFs) (td : TempDir) (p q : String)
    (fs fs2 : Fs) (fd fd2 : FileData)
    (h1 : LocalFs.get_data lfs p fs = Except.ok fd)
    (h2 : TempDir.get_data td q fs2 = Except.ok fd2) :
    fd.size.isSome = true ∧ fd2.size.isSome = true := by
  constructor
  · simp only [LocalFs.get_data] at h1
    by_cases hex : pathExists fs (pathJoin lfs.base_path (parsePath p)) = true
    · rw [if_neg (not_not_intro hex)] at h1
      cases hfn : fileNameOfPath (pathJoin lfs.base_path (parsePath p)) with
      | none =>
          rw [hfn] at h1
          exact absurd h1 (by simp)
      | some filename =>
          rw [hfn] at h1
          injection h1 with h1
          rw [← h1]
          show ((statPath fs (pathJoin lfs.base_path (parsePath p))).map nodeLen).isSome = true
          unfold pathExists at hex
          cases hst : statPath fs (pathJoin lfs.base_path (parsePath p)) with
          | none => rw [hst] at hex; simp at hex
          | some n => rfl
    · rw [if_pos hex] at h1
      exact absurd h1 (by simp)
  · simp only [TempDir.get_data, TempDir.target_path_from_key] at h2
    cases hfn : fileNameOfPath (pathJoin td.base (parsePath q)) with
    | none =>
        rw [hfn] at h2
        exact absurd h2 (by simp)
    | some filename =>
        rw [hfn] at h2
        cases hm : fsMeta fs2 (pathJoin td.base (parsePath q)) with
        | error e =>
            rw [hm] at h2
            exact absurd h2 (by simp)
        | ok n =>
            rw [hm] at h2
            injection h2 with h2
            rw [← h2]
            rfl

/-- Witness for C7 amended on root `/data` with file `test.txt`. -/
theorem c7_size_some_on_success_witness :
    (FileData.mk "test.txt" [Comp.rootDir, Comp.normal "data"] (some 2)).size.isSome = true ∧
    (FileData.mk "test.txt" [Comp.rootDir, Comp.normal "data"] (some 2)).size.isSome = true :=
  c7_size_some_on_success ⟨[Comp.rootDir, Comp.normal "data"]⟩
    ⟨[Comp.rootDir, Comp.normal "data"]⟩ "test.txt" "test.txt"
    (listingFs [7, 8]) (listingFs [7, 8]) _ _ (by decide) (by decide)

/-- C8: for a root `/data` containing exactly one file `test.txt` (any
contents), both backends list the root as one entry
`(test.txt, test.txt, File)`, reject listing the file itself with
`BadRequest`, and for key `.` return the prefix-joined relative path
`./test.txt`. -/
theorem c8_listing_correctness (contents : List Nat) :
    LocalFs.list_dir ⟨[Comp.rootDir, Comp.normal "data"]⟩ none (listingFs contents) =
      Except.ok [⟨"test.txt", "test.txt", FileType.File⟩] ∧
    LocalFs.list_dir ⟨[Comp.rootDir, Comp.normal "data"]⟩ (some "test.txt")
      (listingFs contents) =
      Except.error (Error.BadRequest "test.txt is not a directory") ∧
    LocalFs.list_dir ⟨[Comp.rootDir, Comp.normal "data"]⟩ (some ".") (listingFs contents) =
      Except.ok [⟨"test.txt", "./test.txt", FileType.File⟩] ∧
    TempDir.list_dir ⟨[Comp.rootDir, Comp.normal "data"]⟩ none (listingFs contents) =
      Except.ok [⟨"test.txt", "test.txt", FileType.File⟩] ∧
    TempDir.list_dir ⟨[Comp.rootDir, Comp.normal "data"]⟩ (some "test.txt")
      (listingFs contents) =
      Except.error (Error.BadRequest "test.txt is not a directory") ∧
    TempDir.list_dir ⟨[Comp.rootDir, Comp.normal "data"]⟩ (some ".") (listingFs contents) =
      Except.ok [⟨"test.txt", "./test.txt", FileType.File⟩] := by
  refine ⟨rfl, rfl, rfl, rfl, rfl, rfl⟩

/-- C9 counterexample: with root `/tmp/x` holding `test.txt`, the key
`/tmp/x` passes the containment check, and `LocalFs::list_dir` then
returns an entry whose `fullpath` is `/tmp/x/test.txt` — absolute, with a
leading `/`, not relative to the root. -/
theorem c9_fullpath_leading_slash :
    LocalFs.list_dir ⟨rootTmpX⟩ (some "/tmp/x") escapeListFs =
      Except.ok [⟨"test.txt", "/tmp/x/test.txt", FileType.File⟩] ∧
    beginsWithSlash "/tmp/x/test.txt" = true := by
  refine ⟨by decide, by decide⟩

/-- C9 amended: `TempDir::list_dir` trims every leading `/`, so its
entries' `full_relative_path` never begins with `/`; `LocalFs::list_dir`
joins the caller's key prefix verbatim, so an accepted key beginning with
`/` produces entries with a leading `/`. -/
theorem c9_tempdir_fullpath_no_slash (td : TempDir) (path : Option String) (fs : Fs)
    (es : List FileEntry) (e : FileEntry)
    (h1 : TempDir.list_dir td path fs = Except.ok es) (h2 : e ∈ es) :
    beginsWithSlash e.fullpath = false := by
  simp only [TempDir.list_dir] at h1
  by_cases hdir : isDirPath fs (pathJoin td.base (parsePath (path.getD ""))) = true
  · rw [if_neg (not_not_intro hdir)] at h1
    cases hrd : fsReadDir fs (pathJoin td.base (parsePath (path.getD ""))) with
    | error er =>
        rw [hrd] at h1
        injection h1 with h1
        rw [← h1] at h2
        simp at h2
    | ok readdir =>
        rw [hrd] at h1
        rcases exceptMap_ok_mem _ readdir es h1 e h2 with ⟨de, hde, hfde⟩
        cases htf : FileEntry.tryFromDirEntry fs
            (pathJoin td.base (parsePath (path.getD ""))) de with
        | error er =>
            rw [htf] at hfde
            exact absurd hfde (by simp)
        | ok fe =>
            rw [htf] at hfde
            injection hfde with hfde
            rw [← hfde]
            exact trim_no_leading_slash _
  · rw [if_pos hdir] at h1
    exact absurd h1 (by simp)

/-- Witness for C9 amended: the `./test.txt` entry of a `TempDir` listing
has no leading slash. -/
theorem c9_tempdir_fullpath_no_slash_witness :
    beginsWithSlash (FileEntry.mk "test.txt" "./test.txt" FileType.File).fullpath = false :=
  c9_tempdir_fullpath_no_slash ⟨[Comp.rootDir, Comp.normal "data"]⟩ (some ".")
    (listingFs [5]) [⟨"test.txt", "./test.txt", FileType.File⟩]
    ⟨"test.txt", "./test.txt", FileType.File⟩ (by decide) (by decide)

/-- C10: for every backend whose root exists, the empty key is reported as
existing: `LocalFs::exists` special-cases the joined target equalling the
base path, and `TempDir::exists` special-cases the empty string. -/
theorem c10_empty_key_exists (base td : List Comp) (fs fs2 : Fs)
    (h1 : pathExists fs base = true) (h2 : pathExists fs2 td = true) :
    LocalFs.existsOp ⟨base⟩ "" fs = Except.ok true ∧
    TempDir.existsOp ⟨td⟩ "" fs2 = Except.ok true := by
  constructor
  · have hjoin : pathJoin base (parsePath "") = base := by
      have hp : parsePath "" = [] := by decide
      rw [hp]
      unfold pathJoin
      rw [if_neg (by simp)]
      by_cases hb : base = []
      · rw [if_pos hb, hb]
      · rw [if_neg hb]
        simp
    simp only [LocalFs.existsOp]
    rw [hjoin]
    simp
  · simp only [TempDir.existsOp]
    rfl

/-- Witness for C10 with root `/tmp/x` on a filesystem where it exists. -/
theorem c10_empty_key_exists_witness :
    LocalFs.existsOp ⟨rootTmpX⟩ "" etcFs = Except.ok true ∧
    TempDir.existsOp ⟨rootTmpX⟩ "" etcFs = Except.ok true :=
  c10_empty_key_exists rootTmpX rootTmpX etcFs etcFs (by decide) (by decide)
